import Mathlib

/-!
Verification development for the multi-tier recommendation cache of the
repository (source: `cache_utils.py` plus the decorated consumer in
`utils.py`).  The Python classes `CircuitBreaker`, `CacheStorage` and
`SimpleCache`, and the decorators `cache_with_redis` and `cache_response`,
are shallowly embedded below: wall-clock times (`time.time()`) are passed
explicitly as rational numbers, the random draw of the half-open breaker
probe is passed explicitly, Python dictionaries become association lists
preserving insertion order (as Python dicts do), and the pickled files of
the disk cache become an association list from key to a file that is either
a well-formed envelope or corrupt (un-deserializable).
-/

/-- A Python value as far as the cache is concerned.  `obj` stands for a
black-box object such as a streaming `Response`; it is truthy and cannot
be pickled. -/
inductive PyVal where
  | none : PyVal
  | bool : Bool → PyVal
  | int : Int → PyVal
  | str : String → PyVal
  | list : List PyVal → PyVal
  | dict : List (String × PyVal) → PyVal
  | obj : Nat → PyVal

/-- Python truthiness (`if cached_result:`). -/
def truthy : PyVal → Bool
  | .none => false
  | .bool b => b
  | .int n => n != 0
  | .str s => s != ""
  | .list l => !l.isEmpty
  | .dict d => !d.isEmpty
  | .obj _ => true

/-- Python identity test against `None` (`cached_result is not None` is the
negation of this). -/
def isNone : PyVal → Bool
  | .none => true
  | _ => false

mutual

/-- Whether `pickle.dump` succeeds on the value: everything except
black-box objects (streaming responses, generators) serializes. -/
def picklable : PyVal → Bool
  | .none => true
  | .bool _ => true
  | .int _ => true
  | .str _ => true
  | .list l => picklableList l
  | .dict d => picklableDict d
  | .obj _ => false

def picklableList : List PyVal → Bool
  | [] => true
  | v :: vs => picklable v && picklableList vs

def picklableDict : List (String × PyVal) → Bool
  | [] => true
  | p :: ps => picklable p.2 && picklableDict ps

end

section AssocList

variable {α : Type}

/-- Python dictionary access `d[k]` / `k in d`, on an insertion-ordered
association list. -/
def lookupKey (k : String) : List (String × α) → Option α
  | [] => Option.none
  | p :: ps => if p.1 = k then some p.2 else lookupKey k ps

/-- Python dictionary assignment `d[k] = v`: replaces the value in place if
the key is present (keeping its position, as Python dicts do) and appends a
new binding otherwise. -/
def replaceOrAppend : List (String × α) → String → α → List (String × α)
  | [], k, v => [(k, v)]
  | p :: ps, k, v => if p.1 = k then (k, v) :: ps else p :: replaceOrAppend ps k v

/-- Python dictionary deletion `del d[k]` (removes the single binding for
`k` when present). -/
def eraseKey (k : String) : List (String × α) → List (String × α)
  | [] => []
  | p :: ps => if p.1 = k then ps else p :: eraseKey k ps

/-- The Python call `min(d.items(), key=...)`: the first item attaining
the minimal measure (the Python `min` keeps the earliest of several
minima). -/
def argminBy (m : α → ℚ) : List (String × α) → Option (String × α)
  | [] => Option.none
  | p :: ps =>
    match argminBy m ps with
    | Option.none => some p
    | some q => if m q.2 < m p.2 then some q else some p

/-- The shared memory-tier insertion of `CacheStorage._store_in_all_layers`
and `SimpleCache.set`:

    if len(cache) >= capacity:
        oldest_key = min(cache.items(), key=measure)
        del cache[oldest_key[0]]
    cache[key] = entry

When the eviction branch fires on an empty table (only possible when
`capacity = 0`) the source raises `ValueError` from `min()`; the model is
used with capacity at least 1 throughout, where that branch is
unreachable. -/
def lruInsert (cap : Nat) (m : α → ℚ) (c : List (String × α)) (k : String) (e : α) :
    List (String × α) :=
  let c1 := if cap ≤ c.length then
      match argminBy m c with
      | some old => eraseKey old.1 c
      | Option.none => c
    else c
  replaceOrAppend c1 k e

end AssocList

/-! ### Cache-key derivation

`cache_with_redis` builds the key string as

    key_parts = [str(arg) for arg in args]
    key_parts.extend(f"{k}:{v}" for k, v in sorted(kwargs.items()))
    key_string = "|".join(key_parts)
    cache_key = hashlib.md5(key_string.encode()).hexdigest()

`cache_response` prepends `func.__name__` to the parts.  Positional and
keyword argument values appear through `str(...)`, so they enter the model
as strings; the final hash is an arbitrary function parameter (`md5` is a
fixed pure function of the key string, so every property below holds for
it). -/

/-- The order `sorted` uses on the `(name, str(value))` items of a Python
dict: lexicographic on the pair. -/
def pairLe (a b : String × String) : Prop :=
  a.1 < b.1 ∨ (a.1 = b.1 ∧ a.2 ≤ b.2)

instance : DecidableRel pairLe := fun a b =>
  inferInstanceAs (Decidable (_ ∨ _))

instance : IsTotal (String × String) pairLe where
  total a b := by
    rcases lt_trichotomy a.1 b.1 with h | h | h
    · exact Or.inl (Or.inl h)
    · rcases le_total a.2 b.2 with h2 | h2
      · exact Or.inl (Or.inr ⟨h, h2⟩)
      · exact Or.inr (Or.inr ⟨h.symm, h2⟩)
    · exact Or.inr (Or.inl h)

instance : IsTrans (String × String) pairLe where
  trans a b c hab hbc := by
    rcases hab with h1 | ⟨e1, l1⟩
    · rcases hbc with h2 | ⟨e2, l2⟩
      · exact Or.inl (h1.trans h2)
      · exact Or.inl (e2 ▸ h1)
    · rcases hbc with h2 | ⟨e2, l2⟩
      · exact Or.inl (e1 ▸ h2)
      · exact Or.inr ⟨e1.trans e2, l1.trans l2⟩

instance : IsAntisymm (String × String) pairLe where
  antisymm a b hab hba := by
    rcases hab with h1 | ⟨e1, l1⟩
    · rcases hba with h2 | ⟨e2, l2⟩
      · exact absurd h2 (lt_asymm h1)
      · exact absurd h1 (e2 ▸ lt_irrefl _)
    · rcases hba with h2 | ⟨e2, l2⟩
      · exact absurd h2 (e1 ▸ lt_irrefl _)
      · exact Prod.ext e1 (le_antisymm l1 l2)

/-- The key derivation of `cache_with_redis` (for `cache_response`, pass
`func.__name__ :: args` as the positional parts).  `hash` abstracts
`md5(...).hexdigest()`. -/
def deriveKey (hash : String → String) (args : List String)
    (kwargs : List (String × String)) : String :=
  hash (String.intercalate "|"
    (args ++ (List.insertionSort pairLe kwargs).map (fun p => p.1 ++ ":" ++ p.2)))

/-! ### CircuitBreaker (`cache_utils.py` lines 17–54) -/

/-- State of a `CircuitBreaker`; `state` is one of the strings `"closed"`,
`"open"`, `"half-open"` exactly as in the source. -/
structure CircuitBreaker where
  failure_threshold : Nat
  reset_timeout : ℚ
  failures : Nat
  last_failure_time : ℚ
  state : String

/-- `CircuitBreaker()` with the default `failure_threshold=5`,
`reset_timeout=60`. -/
def CircuitBreaker.init : CircuitBreaker :=
  ⟨5, 60, 0, 0, "closed"⟩

/-- `CircuitBreaker.record_failure`, with `time.time()` passed as `now`. -/
def CircuitBreaker.record_failure (cb : CircuitBreaker) (now : ℚ) : CircuitBreaker :=
  let failures0 := if cb.reset_timeout < now - cb.last_failure_time then 0 else cb.failures
  let failures1 := failures0 + 1
  { cb with
    failures := failures1
    last_failure_time := now
    state := if cb.failure_threshold ≤ failures1 then "open" else cb.state }

/-- `CircuitBreaker.record_success`. -/
def CircuitBreaker.record_success (cb : CircuitBreaker) : CircuitBreaker :=
  { cb with failures := 0, state := "closed" }

/-- `CircuitBreaker.allow_request`, with `time.time()` passed as `now` and
the `random.random()` draw of the half-open probe passed as `rand`; returns the
boolean answer together with the (possibly lazily transitioned) breaker. -/
def CircuitBreaker.allow_request (cb : CircuitBreaker) (now rand : ℚ) :
    Bool × CircuitBreaker :=
  if cb.state = "closed" then (true, cb)
  else if cb.state = "open" then
    if cb.reset_timeout < now - cb.last_failure_time then
      (true, { cb with state := "half-open" })
    else (false, cb)
  else (decide (rand < 1/10), cb)

/-! ### CacheStorage (`cache_utils.py` lines 56–210)

The disk-cache directory becomes an association list from key to the file
stored at `_get_disk_cache_path(key)`; a file carries its creation time
(`os.path.getctime`) and a content that is either a well-formed pickled
envelope or `corrupt` (a file `pickle.load` raises on).  `CacheStorage`
has no Redis client despite the decorator being named after Redis; only the memory and disk
tiers exist. -/

/-- An entry of `CacheStorage.local_cache`: a dict with the fields
`value`, `expires` and `access_time`. -/
structure MemEntry where
  value : PyVal
  expires : ℚ
  access_time : ℚ

/-- An entry of `CacheStorage.access_counts`: a dict with the fields
`count` and `last_access`. -/
structure AccessInfo where
  count : Nat
  last_access : ℚ

/-- Content of a `CacheStorage` disk-cache file: the pickled envelope
with fields `value`, `expires` and `version`, or a file that fails to
deserialize. -/
inductive DiskContent where
  | corrupt : DiskContent
  | entry : PyVal → ℚ → String → DiskContent

/-- A disk-cache file together with its `os.path.getctime` timestamp. -/
structure DiskFile where
  ctime : ℚ
  content : DiskContent

/-- `self.cache_version = "1.0"`. -/
def cacheVersion : String := "1.0"

/-- `self.access_threshold = 5`. -/
def accessThreshold : Nat := 5

/-- `self.cleanup_interval = 3600`. -/
def cleanupInterval : ℚ := 3600

/-- The mutable state of a `CacheStorage` instance (maintenance-thread
bookkeeping included; the unused reconnect fields are constants and
omitted). -/
structure CacheState where
  local_cache : List (String × MemEntry)
  disk : List (String × DiskFile)
  access_counts : List (String × AccessInfo)
  frequently_accessed : List String
  last_cleanup : ℚ
  circuit_breaker : CircuitBreaker

namespace CacheStorage

/-- `CacheStorage.__init__` at time `now`, over whatever files already sit
in the cache directory (the constructor creates the directory but never
clears it). -/
def initState (now : ℚ) (disk : List (String × DiskFile)) : CacheState :=
  ⟨[], disk, [], [], now, CircuitBreaker.init⟩

/-- `CacheStorage._store_in_all_layers`: memory insert with LRU-like
eviction at 1000 entries, then a best-effort pickled disk write.  The
write is `open(cache_path, 'wb')` followed by `pickle.dump` inside a
`try`: `open` with mode `wb` creates or truncates the file first, so when
the value cannot be pickled the `except` branch (which only logs) leaves a
truncated, un-deserializable file at the key — overwriting any entry that
was there — rather than leaving the disk tier unchanged. -/
def _store_in_all_layers (st : CacheState) (key : String) (value : PyVal)
    (expiration : ℚ) (now : ℚ) : CacheState :=
  { st with
    local_cache :=
      lruInsert 1000 (fun e => e.access_time) st.local_cache key
        ⟨value, now + expiration, now⟩
    disk :=
      if picklable value then
        replaceOrAppend st.disk key ⟨now, .entry value (now + expiration) cacheVersion⟩
      else
        replaceOrAppend st.disk key ⟨now, .corrupt⟩ }

/-- `CacheStorage.set` (its body is exactly `_store_in_all_layers`; the
source default `expiration=3600` is passed explicitly). -/
def set (st : CacheState) (key : String) (value : PyVal) (expiration : ℚ)
    (now : ℚ) : CacheState :=
  _store_in_all_layers st key value expiration now

/-- The disk-fallback block of `CacheStorage.get`: a missing file or a file
`pickle.load` raises on is a miss (the corrupt file is left in place — the
`except` only logs); a loaded envelope is served when unexpired and
version-matching, and deleted otherwise. -/
def getDisk (st : CacheState) (key : String) (now : ℚ) : PyVal × CacheState :=
  match lookupKey key st.disk with
  | Option.none => (.none, st)
  | some f =>
    match f.content with
    | .corrupt => (.none, st)
    | .entry v e ver =>
      if now < e ∧ ver = cacheVersion then (v, st)
      else (.none, { st with disk := eraseKey key st.disk })

/-- `CacheStorage.get`: access tracking, then the memory tier (serving an
unexpired entry refreshes its `access_time`; an expired one is deleted),
then the disk tier.  A disk hit is returned without being written back to
memory. -/
def get (st : CacheState) (key : String) (now : ℚ) : PyVal × CacheState :=
  let prev := (lookupKey key st.access_counts).getD ⟨0, now⟩
  let info : AccessInfo := ⟨prev.count + 1, now⟩
  let st1 : CacheState :=
    { st with
      access_counts := replaceOrAppend st.access_counts key info
      frequently_accessed :=
        if accessThreshold ≤ info.count then st.frequently_accessed.insert key
        else st.frequently_accessed }
  match lookupKey key st1.local_cache with
  | some e =>
    if now < e.expires then
      (e.value,
        { st1 with
          local_cache := replaceOrAppend st1.local_cache key { e with access_time := now } })
    else getDisk { st1 with local_cache := eraseKey key st1.local_cache } key now
  | Option.none => getDisk st1 key now

/-- `CacheStorage._cleanup_old_entries`: a no-op within `cleanup_interval`
of the previous sweep; otherwise drops access counts idle for 24h,
recomputes the frequently-accessed set, and removes disk files older than
24h.  The memory tier is not touched. -/
def _cleanup_old_entries (st : CacheState) (now : ℚ) : CacheState :=
  if now - st.last_cleanup < cleanupInterval then st
  else
    let counts := st.access_counts.filter (fun p => decide (now - p.2.last_access < 86400))
    { st with
      access_counts := counts
      frequently_accessed :=
        (counts.filter (fun p => decide (accessThreshold ≤ p.2.count))).map Prod.fst
      disk := st.disk.filter (fun p => decide (¬ p.2.ctime < now - 86400))
      last_cleanup := now }

end CacheStorage

/-! ### SimpleCache (`cache_utils.py` lines 249–331) -/

/-- Content of a `SimpleCache` disk file: the envelope with fields
`value` and `expires` (no version tag), or a corrupt file. -/
inductive SCDiskContent where
  | corrupt : SCDiskContent
  | entry : PyVal → ℚ → SCDiskContent

/-- A `SimpleCache` disk file with its `os.path.getctime` timestamp. -/
structure SCDiskFile where
  ctime : ℚ
  content : SCDiskContent

/-- The state of a `SimpleCache` instance: `self.cache` maps key to the
tuple `(value, expires)`; `max_size` and `default_expiration` are the
constructor parameters (defaults 1000 and 3600). -/
structure SimpleCacheState where
  cache : List (String × (PyVal × ℚ))
  disk : List (String × SCDiskFile)
  max_size : Nat
  default_expiration : ℚ

namespace SimpleCache

/-- `SimpleCache.set`: the expiry duration is
`remaining_time if remaining_time else (expiration or default_expiration)`
(Python truthiness: a `None` or zero `remaining_time`/`expiration` falls
through); memory insert with eviction of the entry with the earliest
`expires`, then a best-effort pickled disk write.  As in
`CacheStorage._store_in_all_layers`, `open(cache_path, 'wb')` truncates or
creates the file before `pickle.dump` runs, so an unpicklable value leaves
a truncated, un-deserializable file at the key (the `except` branch only
logs). -/
def set (st : SimpleCacheState) (key : String) (value : PyVal)
    (expiration : Option ℚ) (remaining_time : Option ℚ) (now : ℚ) : SimpleCacheState :=
  let fallback : ℚ :=
    match expiration with
    | some e => if e = 0 then st.default_expiration else e
    | Option.none => st.default_expiration
  let dur : ℚ :=
    match remaining_time with
    | some r => if r = 0 then fallback else r
    | Option.none => fallback
  let expires := now + dur
  { st with
    cache := lruInsert st.max_size (fun p => p.2) st.cache key (value, expires)
    disk :=
      if picklable value then replaceOrAppend st.disk key ⟨now, .entry value expires⟩
      else replaceOrAppend st.disk key ⟨now, .corrupt⟩ }

/-- The disk-fallback block of `SimpleCache.get`: a hit restores the entry
to the memory cache via `set(key, value, remaining_time=expires - now)`
before returning it; an expired file is removed; a corrupt file is a miss
and is left in place. -/
def getDisk (st : SimpleCacheState) (key : String) (now : ℚ) :
    PyVal × SimpleCacheState :=
  match lookupKey key st.disk with
  | Option.none => (.none, st)
  | some f =>
    match f.content with
    | .corrupt => (.none, st)
    | .entry v e =>
      if now < e then (v, set st key v Option.none (some (e - now)) now)
      else (.none, { st with disk := eraseKey key st.disk })

/-- `SimpleCache.get`: memory tier first (an expired entry is deleted),
then the disk tier with memory backfill. -/
def get (st : SimpleCacheState) (key : String) (now : ℚ) :
    PyVal × SimpleCacheState :=
  match lookupKey key st.cache with
  | some (v, e) =>
    if now < e then (v, st)
    else getDisk { st with cache := eraseKey key st.cache } key now
  | Option.none => getDisk st key now

/-- `SimpleCache.cleanup`: drops expired memory entries and disk files
whose creation time is older than `default_expiration`. -/
def cleanup (st : SimpleCacheState) (now : ℚ) : SimpleCacheState :=
  { st with
    cache := st.cache.filter (fun p => decide (now < p.2.2))
    disk := st.disk.filter (fun p => decide (¬ p.2.ctime < now - st.default_expiration)) }

end SimpleCache

/-! ### The decorators (`cache_with_redis`, `cache_response`)

A wrapped call is modelled by the outcome `op` the wrapped operation would
produce if invoked (`Except.error` for a raised exception), the call time
`now`, and the pre-call cache state; the model returns the result of the call,
the post-call state, and whether the wrapped operation was invoked. -/

/-- Outcome of one decorated call. -/
structure RunResult (σ : Type) where
  result : Except Unit PyVal
  state : σ
  opInvoked : Bool

/-- The `cache_with_redis(expiration)` wrapper body: derive the key, serve
a truthy cached value, otherwise invoke the operation and — on success —
store its result.  Nothing in the wrapper consults or updates
`cache_storage.circuit_breaker`, and no argument (in particular no
`stream` flag) is special-cased. -/
def cacheWithRedis (expiration : ℚ) (hash : String → String) (args : List String)
    (kwargs : List (String × String)) (op : Except Unit PyVal) (now : ℚ)
    (st : CacheState) : RunResult CacheState :=
  let key := deriveKey hash args kwargs
  let r := CacheStorage.get st key now
  if truthy r.1 then ⟨.ok r.1, r.2, false⟩
  else
    match op with
    | .error e => ⟨.error e, r.2, true⟩
    | .ok v => ⟨.ok v, CacheStorage.set r.2 key v expiration now, true⟩

/-- The `cache_response(expiration)` wrapper body: the key additionally
starts with `func.__name__`, and a cached value is served whenever it `is
not None`. -/
def cacheResponse (expiration : ℚ) (hash : String → String) (fname : String)
    (args : List String) (kwargs : List (String × String)) (op : Except Unit PyVal)
    (now : ℚ) (st : SimpleCacheState) : RunResult SimpleCacheState :=
  let key := deriveKey hash (fname :: args) kwargs
  let r := SimpleCache.get st key now
  if isNone r.1 then
    match op with
    | .error e => ⟨.error e, r.2, true⟩
    | .ok v => ⟨.ok v, SimpleCache.set r.2 key v (some expiration) Option.none now, true⟩
  else ⟨.ok r.1, r.2, false⟩

/-- `SimpleCache()` with the default `max_size=1000`, `expiration=3600`,
over whatever files already sit in the shared cache directory. -/
def SimpleCache.initState (disk : List (String × SCDiskFile)) : SimpleCacheState :=
  ⟨[], disk, 1000, 3600⟩

/-- Folding the shared memory-tier insertion over a list of
`(key, entry)` pairs, in order. -/
def insertList {α : Type} (cap : Nat) (m : α → ℚ) (ps : List (String × α))
    (c : List (String × α)) : List (String × α) :=
  ps.foldl (fun acc p => lruInsert cap m acc p.1 p.2) c

/-- Folding `CacheStorage.set` over a list of `(key, value, time)`
triples, in order, with a fixed expiration. -/
def setSeq (expiration : ℚ) (ts : List (String × PyVal × ℚ)) (st : CacheState) :
    CacheState :=
  ts.foldl (fun s t => CacheStorage.set s t.1 t.2.1 expiration t.2.2) st

/-- Folding `SimpleCache.set` (with default expiration) over a list of
`(key, value, time)` triples, in order. -/
def scSetSeq (ts : List (String × PyVal × ℚ)) (st : SimpleCacheState) :
    SimpleCacheState :=
  ts.foldl (fun s t => SimpleCache.set s t.1 t.2.1 Option.none Option.none t.2.2) st

/-- The `i`-th insertion of the capacity-eviction witness: a key of `i`
letters, the value `0`, insertion time `i`. -/
def evictItem (i : Nat) : String × PyVal × ℚ :=
  (String.mk (List.replicate i 'a'), PyVal.int 0, (i : ℚ))

/-! ### Library: association-list and eviction lemmas -/

section AssocLemmas

variable {α : Type} {c : List (String × α)} {k k' : String} {e : α} {m : α → ℚ}

theorem lookupKey_replaceOrAppend_self (c : List (String × α)) (k : String) (e : α) :
    lookupKey k (replaceOrAppend c k e) = some e := by
  induction c with
  | nil => simp [replaceOrAppend, lookupKey]
  | cons p ps ih =>
    by_cases h : p.1 = k
    · simp [replaceOrAppend, lookupKey, h]
    · simp [replaceOrAppend, lookupKey, h, ih]

theorem lookupKey_replaceOrAppend_ne (c : List (String × α)) (e : α) (h : k' ≠ k) :
    lookupKey k' (replaceOrAppend c k e) = lookupKey k' c := by
  have hk : ¬ k = k' := fun h' => h h'.symm
  induction c with
  | nil => simp [replaceOrAppend, lookupKey, hk]
  | cons p ps ih =>
    by_cases hp : p.1 = k
    · simp [replaceOrAppend, lookupKey, hp, hk]
    · simp [replaceOrAppend, lookupKey, hp, ih]

theorem replaceOrAppend_length_le (c : List (String × α)) (k : String) (e : α) :
    (replaceOrAppend c k e).length ≤ c.length + 1 := by
  induction c with
  | nil => simp [replaceOrAppend]
  | cons p ps ih =>
    by_cases h : p.1 = k
    · simp [replaceOrAppend, h]
    · simp only [replaceOrAppend, h, if_false, List.length_cons]
      omega

theorem replaceOrAppend_length_of_found (e : α)
    (h : (lookupKey k c).isSome) :
    (replaceOrAppend c k e).length = c.length := by
  induction c with
  | nil => simp [lookupKey] at h
  | cons p ps ih =>
    by_cases hp : p.1 = k
    · simp [replaceOrAppend, hp]
    · simp only [lookupKey, hp, if_false] at h
      simp only [replaceOrAppend, hp, if_false, List.length_cons, ih h]

theorem replaceOrAppend_of_not_mem (e : α) (h : k ∉ c.map Prod.fst) :
    replaceOrAppend c k e = c ++ [(k, e)] := by
  induction c with
  | nil => simp [replaceOrAppend]
  | cons p ps ih =>
    simp only [List.map_cons, List.mem_cons] at h
    push_neg at h
    have hp : ¬ p.1 = k := fun h' => h.1 h'.symm
    simp [replaceOrAppend, hp, ih h.2]

theorem eraseKey_length_le (c : List (String × α)) (k : String) :
    (eraseKey k c).length ≤ c.length := by
  induction c with
  | nil => simp [eraseKey]
  | cons p ps ih =>
    by_cases h : p.1 = k
    · simp [eraseKey, h]
    · simp only [eraseKey, h, if_false, List.length_cons]
      omega

theorem eraseKey_length_of_found (c : List (String × α)) (k : String)
    (h : (lookupKey k c).isSome) :
    (eraseKey k c).length + 1 = c.length := by
  induction c with
  | nil => simp [lookupKey] at h
  | cons p ps ih =>
    by_cases hp : p.1 = k
    · simp [eraseKey, hp]
    · simp only [lookupKey, hp, if_false] at h
      simp only [eraseKey, hp, if_false, List.length_cons, ih h]

theorem lookupKey_eq_none (h : k ∉ c.map Prod.fst) :
    lookupKey k c = Option.none := by
  induction c with
  | nil => rfl
  | cons p ps ih =>
    simp only [List.map_cons, List.mem_cons] at h
    push_neg at h
    have hp : ¬ p.1 = k := fun h' => h.1 h'.symm
    simp [lookupKey, hp, ih h.2]

theorem lookupKey_isSome_of_mem {p : String × α} (h : p ∈ c) :
    (lookupKey p.1 c).isSome := by
  induction c with
  | nil => simp at h
  | cons q ps ih =>
    by_cases hq : q.1 = p.1
    · simp [lookupKey, hq]
    · rcases List.mem_cons.mp h with h' | h'
      · exact absurd (h' ▸ rfl) hq
      · simpa [lookupKey, hq] using ih h'

theorem lookupKey_of_mem_nodup {p : String × α} (c : List (String × α))
    (hnd : (c.map Prod.fst).Nodup)
    (h : p ∈ c) : lookupKey p.1 c = some p.2 := by
  induction c with
  | nil => simp at h
  | cons q ps ih =>
    simp only [List.map_cons, List.nodup_cons] at hnd
    rcases List.mem_cons.mp h with h' | h'
    · subst h'; simp [lookupKey]
    · have hq : q.1 ≠ p.1 := by
        intro he
        exact hnd.1 (he ▸ List.mem_map_of_mem Prod.fst h')
      simp [lookupKey, hq, ih hnd.2 h']

theorem argminBy_mem {q : String × α} (h : argminBy m c = some q) : q ∈ c := by
  induction c with
  | nil => simp [argminBy] at h
  | cons p ps ih =>
    rcases hps : argminBy m ps with _ | r
    · simp only [argminBy, hps] at h
      injection h with h
      exact List.mem_cons.mpr (Or.inl h.symm)
    · simp only [argminBy, hps] at h
      by_cases hm' : m r.2 < m p.2
      · rw [if_pos hm'] at h
        injection h with h
        subst h
        exact List.mem_cons.mpr (Or.inr (ih hps))
      · rw [if_neg hm'] at h
        injection h with h
        exact List.mem_cons.mpr (Or.inl h.symm)

theorem argminBy_cons_isSome (m : α → ℚ) (p : String × α) (ps : List (String × α)) :
    (argminBy m (p :: ps)).isSome := by
  rcases hps : argminBy m ps with _ | r
  · simp [argminBy, hps]
  · by_cases hm' : m r.2 < m p.2 <;> simp [argminBy, hps, hm']

theorem argminBy_head {p : String × α} {ps : List (String × α)}
    (h : ∀ q ∈ ps, m p.2 < m q.2) : argminBy m (p :: ps) = some p := by
  rcases hps : argminBy m ps with _ | r
  · simp [argminBy, hps]
  · have hr : r ∈ ps := argminBy_mem hps
    have : ¬ m r.2 < m p.2 := not_lt_of_gt (h r hr)
    simp [argminBy, hps, this]

theorem lruInsert_small {cap : Nat} (e : α) (h : c.length < cap) :
    lruInsert cap m c k e = replaceOrAppend c k e := by
  simp [lruInsert, Nat.not_le_of_lt h]

theorem lruInsert_length {cap : Nat} (e : α) (hcap : 1 ≤ cap) (h : c.length ≤ cap) :
    (lruInsert cap m c k e).length ≤ cap := by
  by_cases hfull : cap ≤ c.length
  · have hlen : c.length = cap := le_antisymm h hfull
    have hne : c ≠ [] := by
      intro h0
      rw [h0] at hlen
      simp at hlen
      omega
    obtain ⟨p, ps, rfl⟩ := List.exists_cons_of_ne_nil hne
    rcases hmin : argminBy m (p :: ps) with _ | old
    · have := argminBy_cons_isSome m p ps
      rw [hmin] at this
      simp at this
    · have hmem : old ∈ p :: ps := argminBy_mem hmin
      have hfound : (lookupKey old.1 (p :: ps)).isSome := lookupKey_isSome_of_mem hmem
      have herase := eraseKey_length_of_found (p :: ps) old.1 hfound
      have hfull' : cap ≤ ps.length + 1 := by simpa using hfull
      have h1 : lruInsert cap m (p :: ps) k e
          = replaceOrAppend (eraseKey old.1 (p :: ps)) k e := by
        simp [lruInsert, hfull', hmin]
      rw [h1]
      have h2 := replaceOrAppend_length_le (eraseKey old.1 (p :: ps)) k e
      simp only [List.length_cons] at herase hlen
      omega
  · rw [lruInsert_small e (lt_of_not_le hfull)]
    have h2 := replaceOrAppend_length_le c k e
    omega

end AssocLemmas

/-! ### Sequential insertion into the memory tier -/

section InsertList

variable {α : Type} {m : α → ℚ}

theorem insertList_nil (cap : Nat) (m : α → ℚ) (c : List (String × α)) :
    insertList cap m [] c = c := rfl

theorem insertList_cons (cap : Nat) (m : α → ℚ) (p : String × α)
    (ps : List (String × α)) (c : List (String × α)) :
    insertList cap m (p :: ps) c = insertList cap m ps (lruInsert cap m c p.1 p.2) := rfl

theorem insertList_append (cap : Nat) (m : α → ℚ) (ps qs : List (String × α))
    (c : List (String × α)) :
    insertList cap m (ps ++ qs) c = insertList cap m qs (insertList cap m ps c) := by
  simp [insertList, List.foldl_append]

/-- While the table stays under capacity, inserting fresh distinct keys
just appends them in order. -/
theorem insertList_fresh (cap : Nat) (m : α → ℚ) :
    ∀ (ps c : List (String × α)),
      c.length + ps.length ≤ cap →
      (∀ k ∈ ps.map Prod.fst, k ∉ c.map Prod.fst) →
      (ps.map Prod.fst).Nodup →
      insertList cap m ps c = c ++ ps := by
  intro ps
  induction ps with
  | nil => intro c _ _ _; simp [insertList_nil]
  | cons p ps ih =>
    intro c hlen hdisj hnd
    simp only [List.length_cons] at hlen
    have hlt : c.length < cap := by omega
    have hpc : p.1 ∉ c.map Prod.fst := hdisj p.1 (by simp)
    rw [insertList_cons, lruInsert_small p.2 hlt, replaceOrAppend_of_not_mem p.2 hpc,
      ih (c ++ [p]) (by simp; omega) ?_ ?_]
    · simp
    · intro k hk
      simp only [List.map_append, List.mem_append, List.map_cons, List.mem_cons]
      rintro (hc | hc)
      · exact hdisj k (by simp [hk]) hc
      · simp only [List.map_cons, List.nodup_cons] at hnd
        simp at hc
        exact hnd.1 (hc ▸ hk)
    · simp only [List.map_cons, List.nodup_cons] at hnd
      exact hnd.2

/-- Filling an empty table with `cap + 1` distinct keys whose measures
strictly increase in insertion order evicts exactly the first key: the
result is the tail of the insertion sequence. -/
theorem insertList_evict_first (cap : Nat) (m : α → ℚ) (p : String × α)
    (rest : List (String × α))
    (hcap : 1 ≤ cap) (hlen : rest.length = cap)
    (hnd : ((p :: rest).map Prod.fst).Nodup)
    (hmono : ((p :: rest).map (fun q => m q.2)).Pairwise (· < ·)) :
    insertList cap m (p :: rest) [] = rest := by
  obtain ⟨front, q, hq⟩ : ∃ front q, rest = front ++ [q] := by
    rcases rest.eq_nil_or_concat with h | ⟨L, b, h⟩
    · rw [h] at hlen; simp at hlen; omega
    · exact ⟨L, b, by simpa using h⟩
  subst hq
  have hfront : front.length + 1 = cap := by simpa using hlen
  rw [List.pairwise_map] at hmono
  have hmono' := List.pairwise_cons.mp hmono
  have hndc := hnd
  simp only [List.map_cons, List.nodup_cons, List.map_append, List.nodup_append] at hndc
  have hstep1 : p :: (front ++ [q]) = (p :: front) ++ [q] := by simp
  rw [hstep1, insertList_append]
  have hfill : insertList cap m (p :: front) [] = p :: front := by
    have := insertList_fresh cap m (p :: front) [] ?_ ?_ ?_
    · simpa using this
    · simp; omega
    · simp
    · simp only [List.map_cons, List.nodup_cons]
      refine ⟨?_, hndc.2.1⟩
      intro hmem
      exact hndc.1 (by simp [hmem])
  rw [hfill, insertList_cons, insertList_nil]
  have hargmin : argminBy m (p :: front) = some p := by
    apply argminBy_head
    intro r hr
    exact hmono'.1 r (List.mem_append_left _ hr)
  have hcaple : cap ≤ (p :: front).length := by simp; omega
  have herase : eraseKey p.1 (p :: front) = front := by simp [eraseKey]
  have hqnotin : q.1 ∉ front.map Prod.fst := by
    intro hmem
    rcases hndc with ⟨hp, hfr, hdisj2⟩
    exact hdisj2.2 hmem (by simp)
  rw [lruInsert]
  simp only [hcaple, if_pos, hargmin, herase]
  rw [replaceOrAppend_of_not_mem q.2 hqnotin]

end InsertList

/-! ### Connecting the fold of `set` to `insertList`, and size preservation -/

theorem setSeq_local_cache (expiration : ℚ) :
    ∀ (ts : List (String × PyVal × ℚ)) (st : CacheState),
      (setSeq expiration ts st).local_cache
        = insertList 1000 (fun e => e.access_time)
            (ts.map (fun t => (t.1, (⟨t.2.1, t.2.2 + expiration, t.2.2⟩ : MemEntry))))
            st.local_cache := by
  intro ts
  induction ts with
  | nil => intro st; rfl
  | cons t ts ih =>
    intro st
    simpa [setSeq, insertList, List.foldl_cons] using
      ih (CacheStorage.set st t.1 t.2.1 expiration t.2.2)

theorem scSetSeq_cache :
    ∀ (ts : List (String × PyVal × ℚ)) (st : SimpleCacheState),
      (scSetSeq ts st).cache
        = insertList st.max_size (fun p => p.2)
            (ts.map (fun t => (t.1, (t.2.1, t.2.2 + st.default_expiration))))
            st.cache := by
  intro ts
  induction ts with
  | nil => intro st; rfl
  | cons t ts ih =>
    intro st
    simpa [scSetSeq, insertList, List.foldl_cons] using
      ih (SimpleCache.set st t.1 t.2.1 Option.none Option.none t.2.2)

theorem scSetSeq_max_size :
    ∀ (ts : List (String × PyVal × ℚ)) (st : SimpleCacheState),
      (scSetSeq ts st).max_size = st.max_size := by
  intro ts
  induction ts with
  | nil => intro st; rfl
  | cons t ts ih =>
    intro st
    simpa [scSetSeq, List.foldl_cons] using
      ih (SimpleCache.set st t.1 t.2.1 Option.none Option.none t.2.2)

theorem CacheStorage.getDisk_local_cache (st : CacheState) (key : String) (now : ℚ) :
    ((CacheStorage.getDisk st key now).2).local_cache = st.local_cache := by
  rcases hd : lookupKey key st.disk with _ | f
  · simp [CacheStorage.getDisk, hd]
  · rcases hc : f.content with _ | ⟨v, e, ver⟩
    · simp [CacheStorage.getDisk, hd, hc]
    · by_cases hv : now < e ∧ ver = cacheVersion
      · simp [CacheStorage.getDisk, hd, hc, hv]
      · simp [CacheStorage.getDisk, hd, hc, hv]

theorem CacheStorage.get_local_cache_length (st : CacheState) (key : String) (now : ℚ)
    (h : st.local_cache.length ≤ 1000) :
    ((CacheStorage.get st key now).2).local_cache.length ≤ 1000 := by
  unfold CacheStorage.get
  rcases hm : lookupKey key st.local_cache with _ | e
  · simp only [hm]
    rw [CacheStorage.getDisk_local_cache]
    exact h
  · simp only [hm]
    by_cases hexp : now < e.expires
    · rw [if_pos hexp]
      have : (lookupKey key st.local_cache).isSome := by simp [hm]
      simpa [replaceOrAppend_length_of_found _ this] using h
    · rw [if_neg hexp]
      rw [CacheStorage.getDisk_local_cache]
      have := eraseKey_length_le st.local_cache key
      simp only []
      omega

theorem SimpleCache.set_cache_length (st : SimpleCacheState) (key : String)
    (v : PyVal) (e r : Option ℚ) (now : ℚ) (hcap : 1 ≤ st.max_size)
    (h : st.cache.length ≤ st.max_size) :
    (SimpleCache.set st key v e r now).cache.length ≤ st.max_size :=
  lruInsert_length _ hcap h

theorem SimpleCache.getDisk_cache_length (st : SimpleCacheState) (key : String)
    (now : ℚ) (hcap : 1 ≤ st.max_size) (h : st.cache.length ≤ st.max_size) :
    ((SimpleCache.getDisk st key now).2).cache.length ≤ st.max_size := by
  rcases hd : lookupKey key st.disk with _ | f
  · simpa [SimpleCache.getDisk, hd] using h
  · rcases hc : f.content with _ | ⟨v, e⟩
    · simpa [SimpleCache.getDisk, hd, hc] using h
    · by_cases hv : now < e
      · simp only [SimpleCache.getDisk, hd, hc, if_pos hv]
        exact SimpleCache.set_cache_length st key v Option.none (some (e - now)) now hcap h
      · simpa [SimpleCache.getDisk, hd, hc, hv] using h

theorem SimpleCache.get_cache_length (st : SimpleCacheState) (key : String)
    (now : ℚ) (hcap : 1 ≤ st.max_size) (h : st.cache.length ≤ st.max_size) :
    ((SimpleCache.get st key now).2).cache.length ≤ st.max_size := by
  unfold SimpleCache.get
  rcases hm : lookupKey key st.cache with _ | ve
  · simp only [hm]
    exact SimpleCache.getDisk_cache_length st key now hcap h
  · simp only [hm]
    by_cases hexp : now < ve.2
    · obtain ⟨v, e⟩ := ve
      simp only [if_pos hexp]
      exact h
    · obtain ⟨v, e⟩ := ve
      simp only [if_neg hexp]
      have herase := eraseKey_length_le st.cache key
      exact SimpleCache.getDisk_cache_length _ key now hcap (by simp only []; omega)

/-! ### Claim theorems -/

/-- C3: from a fresh breaker (threshold 5, reset 60), five consecutive
`record_failure` calls within the reset window open the breaker and
`allow_request` answers `false` while at most `reset_timeout` has elapsed
since the last failure; once more than `reset_timeout` has elapsed the next
`allow_request` answers `true` and moves the state to half-open; a
subsequent `record_success` closes the breaker, after which
`allow_request` answers `true` at every time and random draw. -/
theorem c3_circuit_breaker_state_machine
    (t1 t2 t3 t4 t5 t t' rand : ℚ) (cb5 : CircuitBreaker)
    (h21 : t2 - t1 ≤ 60) (h32 : t3 - t2 ≤ 60) (h43 : t4 - t3 ≤ 60) (h54 : t5 - t4 ≤ 60)
    (ht : t - t5 ≤ 60) (ht' : 60 < t' - t5)
    (hcb5 : cb5 = CircuitBreaker.record_failure (CircuitBreaker.record_failure
      (CircuitBreaker.record_failure (CircuitBreaker.record_failure
        (CircuitBreaker.record_failure CircuitBreaker.init t1) t2) t3) t4) t5) :
    cb5.state = "open" ∧ cb5.failures = 5 ∧
    (CircuitBreaker.allow_request cb5 t rand).1 = false ∧
    (CircuitBreaker.allow_request cb5 t' rand).1 = true ∧
    (CircuitBreaker.allow_request cb5 t' rand).2.state = "half-open" ∧
    (CircuitBreaker.record_success
      (CircuitBreaker.allow_request cb5 t' rand).2).state = "closed" ∧
    ∀ s r, (CircuitBreaker.allow_request (CircuitBreaker.record_success
      (CircuitBreaker.allow_request cb5 t' rand).2) s r).1 = true := by
  subst hcb5
  have n21 : ¬ (60 : ℚ) < t2 - t1 := not_lt.mpr h21
  have n32 : ¬ (60 : ℚ) < t3 - t2 := not_lt.mpr h32
  have n43 : ¬ (60 : ℚ) < t4 - t3 := not_lt.mpr h43
  have n54 : ¬ (60 : ℚ) < t5 - t4 := not_lt.mpr h54
  have nt : ¬ (60 : ℚ) < t - t5 := not_lt.mpr ht
  have e1 : CircuitBreaker.init.record_failure t1 = ⟨5, 60, 1, t1, "closed"⟩ := by
    simp [CircuitBreaker.init, CircuitBreaker.record_failure]
  have e2 : (⟨5, 60, 1, t1, "closed"⟩ : CircuitBreaker).record_failure t2
      = ⟨5, 60, 2, t2, "closed"⟩ := by
    simp [CircuitBreaker.record_failure, n21]
  have e3 : (⟨5, 60, 2, t2, "closed"⟩ : CircuitBreaker).record_failure t3
      = ⟨5, 60, 3, t3, "closed"⟩ := by
    simp [CircuitBreaker.record_failure, n32]
  have e4 : (⟨5, 60, 3, t3, "closed"⟩ : CircuitBreaker).record_failure t4
      = ⟨5, 60, 4, t4, "closed"⟩ := by
    simp [CircuitBreaker.record_failure, n43]
  have e5 : (⟨5, 60, 4, t4, "closed"⟩ : CircuitBreaker).record_failure t5
      = ⟨5, 60, 5, t5, "open"⟩ := by
    simp [CircuitBreaker.record_failure, n54]
  have ecb : CircuitBreaker.record_failure (CircuitBreaker.record_failure
      (CircuitBreaker.record_failure (CircuitBreaker.record_failure
        (CircuitBreaker.record_failure CircuitBreaker.init t1) t2) t3) t4) t5
      = ⟨5, 60, 5, t5, "open"⟩ := by
    rw [e1, e2, e3, e4, e5]
  rw [ecb]
  refine ⟨rfl, rfl, ?_, ?_, ?_, ?_, ?_⟩
  · simp [CircuitBreaker.allow_request, nt]
  · simp [CircuitBreaker.allow_request, ht']
  · simp [CircuitBreaker.allow_request, ht']
  · simp [CircuitBreaker.allow_request, ht', CircuitBreaker.record_success]
  · intro s r
    simp [CircuitBreaker.allow_request, ht', CircuitBreaker.record_success]

/-- Witness for C3 at concrete times `1, 2, 3, 4, 5`, probing at `30`
(blocked) and `100` (allowed). -/
theorem c3_witness :
    (CircuitBreaker.record_failure (CircuitBreaker.record_failure
      (CircuitBreaker.record_failure (CircuitBreaker.record_failure
        (CircuitBreaker.record_failure CircuitBreaker.init 1) 2) 3) 4) 5).state
      = "open" ∧
    (CircuitBreaker.record_failure (CircuitBreaker.record_failure
      (CircuitBreaker.record_failure (CircuitBreaker.record_failure
        (CircuitBreaker.record_failure CircuitBreaker.init 1) 2) 3) 4) 5).failures = 5 ∧
    (CircuitBreaker.allow_request (CircuitBreaker.record_failure
      (CircuitBreaker.record_failure (CircuitBreaker.record_failure
        (CircuitBreaker.record_failure (CircuitBreaker.record_failure
          CircuitBreaker.init 1) 2) 3) 4) 5) 30 0).1 = false ∧
    (CircuitBreaker.allow_request (CircuitBreaker.record_failure
      (CircuitBreaker.record_failure (CircuitBreaker.record_failure
        (CircuitBreaker.record_failure (CircuitBreaker.record_failure
          CircuitBreaker.init 1) 2) 3) 4) 5) 100 0).1 = true ∧
    (CircuitBreaker.allow_request (CircuitBreaker.record_failure
      (CircuitBreaker.record_failure (CircuitBreaker.record_failure
        (CircuitBreaker.record_failure (CircuitBreaker.record_failure
          CircuitBreaker.init 1) 2) 3) 4) 5) 100 0).2.state = "half-open" ∧
    (CircuitBreaker.record_success (CircuitBreaker.allow_request
      (CircuitBreaker.record_failure (CircuitBreaker.record_failure
        (CircuitBreaker.record_failure (CircuitBreaker.record_failure
          (CircuitBreaker.record_failure CircuitBreaker.init 1) 2) 3) 4) 5)
      100 0).2).state = "closed" ∧
    ∀ s r, (CircuitBreaker.allow_request (CircuitBreaker.record_success
      (CircuitBreaker.allow_request (CircuitBreaker.record_failure
        (CircuitBreaker.record_failure (CircuitBreaker.record_failure
          (CircuitBreaker.record_failure (CircuitBreaker.record_failure
            CircuitBreaker.init 1) 2) 3) 4) 5) 100 0).2) s r).1 = true :=
  c3_circuit_breaker_state_machine 1 2 3 4 5 30 100 0
    (CircuitBreaker.record_failure (CircuitBreaker.record_failure
      (CircuitBreaker.record_failure (CircuitBreaker.record_failure
        (CircuitBreaker.record_failure CircuitBreaker.init 1) 2) 3) 4) 5)
    (by norm_num) (by norm_num) (by norm_num) (by norm_num) (by norm_num)
    (by norm_num) rfl

/-- C8: key derivation is deterministic, and two keyword-argument
dictionaries that are equal as mappings (their `(name, str(value))` item
lists are permutations of one another; Python dict keys are unique) derive
the same key, for every hash function applied to the key string — in
particular for `md5`. -/
theorem c8_key_derivation_deterministic :
    (∀ (hash : String → String) (args : List String)
        (kwargs : List (String × String)),
      deriveKey hash args kwargs = deriveKey hash args kwargs) ∧
    ∀ (hash : String → String) (args : List String)
        (kw1 kw2 : List (String × String)),
      kw1.Perm kw2 → deriveKey hash args kw1 = deriveKey hash args kw2 := by
  refine ⟨fun _ _ _ => rfl, ?_⟩
  intro hash args kw1 kw2 hperm
  have hsort : List.insertionSort pairLe kw1 = List.insertionSort pairLe kw2 :=
    List.eq_of_perm_of_sorted
      ((List.perm_insertionSort pairLe kw1).trans
        (hperm.trans (List.perm_insertionSort pairLe kw2).symm))
      (List.sorted_insertionSort pairLe kw1)
      (List.sorted_insertionSort pairLe kw2)
  simp [deriveKey, hsort]

/-- Witness for C8: the keyword dictionaries `b=2, a=1` and `a=1, b=2` are
permutations of each other and derive the same key. -/
theorem c8_witness :
    List.Perm [("b", "2"), ("a", "1")] [("a", "1"), ("b", "2")] ∧
      deriveKey id ["x"] [("b", "2"), ("a", "1")]
        = deriveKey id ["x"] [("a", "1"), ("b", "2")] :=
  ⟨by decide, c8_key_derivation_deterministic.2 id ["x"] _ _ (by decide)⟩

/-- C10: the memory tier never exceeds its capacity bound — 1000
entries for `CacheStorage`, `max_size` (here assumed at least 1, as with
the default 1000) for `SimpleCache`: if the bound holds before a `get`,
`set`, or cleanup operation, it holds after. -/
theorem c10_memory_capacity_invariant
    (st : CacheState) (key : String) (v : PyVal) (exp now : ℚ)
    (sc : SimpleCacheState) (key2 : String) (v2 : PyVal) (e2 r2 : Option ℚ) (now2 : ℚ)
    (hst : st.local_cache.length ≤ 1000)
    (hsc1 : 1 ≤ sc.max_size) (hsc : sc.cache.length ≤ sc.max_size) :
    ((CacheStorage.get st key now).2).local_cache.length ≤ 1000 ∧
    (CacheStorage.set st key v exp now).local_cache.length ≤ 1000 ∧
    (CacheStorage._cleanup_old_entries st now).local_cache.length ≤ 1000 ∧
    ((SimpleCache.get sc key2 now2).2).cache.length ≤ sc.max_size ∧
    (SimpleCache.set sc key2 v2 e2 r2 now2).cache.length ≤ sc.max_size ∧
    (SimpleCache.cleanup sc now2).cache.length ≤ sc.max_size := by
  refine ⟨CacheStorage.get_local_cache_length st key now hst, ?_, ?_,
    SimpleCache.get_cache_length sc key2 now2 hsc1 hsc,
    SimpleCache.set_cache_length sc key2 v2 e2 r2 now2 hsc1 hsc, ?_⟩
  · exact lruInsert_length _ (by norm_num) hst
  · by_cases h : now - st.last_cleanup < cleanupInterval
    · simpa [CacheStorage._cleanup_old_entries, h] using hst
    · simpa [CacheStorage._cleanup_old_entries, h] using hst
  · calc (SimpleCache.cleanup sc now2).cache.length
        ≤ sc.cache.length := List.length_filter_le _ _
      _ ≤ sc.max_size := hsc

/-- Witness for C10 on fresh `CacheStorage` and `SimpleCache` states. -/
theorem c10_witness :
    ((CacheStorage.get (CacheStorage.initState 0 []) "k" 1).2).local_cache.length ≤ 1000 ∧
    (CacheStorage.set (CacheStorage.initState 0 []) "k" (PyVal.int 7) 3600 1).local_cache.length ≤ 1000 ∧
    (CacheStorage._cleanup_old_entries (CacheStorage.initState 0 []) 1).local_cache.length ≤ 1000 ∧
    ((SimpleCache.get (SimpleCache.initState []) "k" 1).2).cache.length
      ≤ (SimpleCache.initState []).max_size ∧
    (SimpleCache.set (SimpleCache.initState []) "k" (PyVal.int 7) Option.none
        Option.none 1).cache.length ≤ (SimpleCache.initState []).max_size ∧
    (SimpleCache.cleanup (SimpleCache.initState []) 1).cache.length
      ≤ (SimpleCache.initState []).max_size :=
  c10_memory_capacity_invariant (CacheStorage.initState 0 []) "k" (PyVal.int 7) 3600 1
    (SimpleCache.initState []) "k" (PyVal.int 7) Option.none Option.none 1
    (by decide) (by decide) (by decide)

/-- C5: filling an empty memory tier with `capacity + 1` distinct keys
(at strictly increasing wall-clock times, hence strictly increasing
last-access times for `CacheStorage` and strictly increasing expiry times
for `SimpleCache`) evicts exactly one entry — the least recent one, the
first key inserted — which is no longer retrievable from the memory tier,
while all other keys remain present. -/
theorem c5_capacity_eviction
    (p : String × PyVal × ℚ) (rest : List (String × PyVal × ℚ)) (exp : ℚ) (st : CacheState)
    (hst : st.local_cache = [])
    (hlen : rest.length = 1000)
    (hnd : ((p :: rest).map Prod.fst).Nodup)
    (hmono : ((p :: rest).map (fun t => t.2.2)).Pairwise (· < ·))
    (q : String × PyVal × ℚ) (rest2 : List (String × PyVal × ℚ)) (sc : SimpleCacheState)
    (hsc : sc.cache = []) (hsc1 : 1 ≤ sc.max_size)
    (hlen2 : rest2.length = sc.max_size)
    (hnd2 : ((q :: rest2).map Prod.fst).Nodup)
    (hmono2 : ((q :: rest2).map (fun t => t.2.2)).Pairwise (· < ·)) :
    ((setSeq exp (p :: rest) st).local_cache.length = 1000 ∧
      lookupKey p.1 (setSeq exp (p :: rest) st).local_cache = Option.none ∧
      ∀ r ∈ rest, lookupKey r.1 (setSeq exp (p :: rest) st).local_cache
        = some ⟨r.2.1, r.2.2 + exp, r.2.2⟩) ∧
    ((scSetSeq (q :: rest2) sc).cache.length = sc.max_size ∧
      lookupKey q.1 (scSetSeq (q :: rest2) sc).cache = Option.none ∧
      ∀ r ∈ rest2, lookupKey r.1 (scSetSeq (q :: rest2) sc).cache
        = some (r.2.1, r.2.2 + sc.default_expiration)) := by
  constructor
  · have hres : (setSeq exp (p :: rest) st).local_cache
        = rest.map (fun t => (t.1, (⟨t.2.1, t.2.2 + exp, t.2.2⟩ : MemEntry))) := by
      rw [setSeq_local_cache, hst, List.map_cons]
      have := insertList_evict_first 1000 (fun e : MemEntry => e.access_time)
        (p.1, (⟨p.2.1, p.2.2 + exp, p.2.2⟩ : MemEntry))
        (rest.map (fun t => (t.1, (⟨t.2.1, t.2.2 + exp, t.2.2⟩ : MemEntry))))
        (by norm_num) (by simp [hlen]) ?_ ?_
      · exact this
      · simpa [List.map_map, Function.comp] using hnd
      · rw [List.pairwise_map] at hmono
        rw [show ((p.1, (⟨p.2.1, p.2.2 + exp, p.2.2⟩ : MemEntry))
            :: rest.map (fun t => (t.1, (⟨t.2.1, t.2.2 + exp, t.2.2⟩ : MemEntry))))
          = (p :: rest).map (fun t => (t.1, (⟨t.2.1, t.2.2 + exp, t.2.2⟩ : MemEntry)))
          from rfl]
        rw [List.pairwise_map, List.pairwise_map]
        exact hmono.imp (fun h => h)
    rw [hres]
    have hndtail : (rest.map Prod.fst).Nodup := (List.nodup_cons.mp (by simpa using hnd)).2
    have hphead : p.1 ∉ rest.map Prod.fst := (List.nodup_cons.mp (by simpa using hnd)).1
    refine ⟨by simp [hlen], ?_, ?_⟩
    · apply lookupKey_eq_none
      simpa [List.map_map, Function.comp] using hphead
    · intro r hr
      have hmem : (r.1, (⟨r.2.1, r.2.2 + exp, r.2.2⟩ : MemEntry))
          ∈ rest.map (fun t => (t.1, (⟨t.2.1, t.2.2 + exp, t.2.2⟩ : MemEntry))) :=
        List.mem_map_of_mem _ hr
      have := lookupKey_of_mem_nodup (rest.map
        (fun t => (t.1, (⟨t.2.1, t.2.2 + exp, t.2.2⟩ : MemEntry))))
        (by simpa [List.map_map, Function.comp] using hndtail) hmem
      simpa using this
  · have hres : (scSetSeq (q :: rest2) sc).cache
        = rest2.map (fun t => (t.1, (t.2.1, t.2.2 + sc.default_expiration))) := by
      rw [scSetSeq_cache, hsc, List.map_cons]
      have := insertList_evict_first sc.max_size (fun e : PyVal × ℚ => e.2)
        (q.1, (q.2.1, q.2.2 + sc.default_expiration))
        (rest2.map (fun t => (t.1, (t.2.1, t.2.2 + sc.default_expiration))))
        hsc1 (by simp [hlen2]) ?_ ?_
      · exact this
      · simpa [List.map_map, Function.comp] using hnd2
      · rw [List.pairwise_map] at hmono2
        rw [show ((q.1, (q.2.1, q.2.2 + sc.default_expiration))
            :: rest2.map (fun t => (t.1, (t.2.1, t.2.2 + sc.default_expiration))))
          = (q :: rest2).map (fun t => (t.1, (t.2.1, t.2.2 + sc.default_expiration)))
          from rfl]
        rw [List.pairwise_map, List.pairwise_map]
        exact hmono2.imp (fun h => by
          simp only []
          linarith)
    rw [hres]
    have hndtail : (rest2.map Prod.fst).Nodup := (List.nodup_cons.mp (by simpa using hnd2)).2
    have hqhead : q.1 ∉ rest2.map Prod.fst := (List.nodup_cons.mp (by simpa using hnd2)).1
    refine ⟨by simp [hlen2], ?_, ?_⟩
    · apply lookupKey_eq_none
      simpa [List.map_map, Function.comp] using hqhead
    · intro r hr
      have hmem : (r.1, (r.2.1, r.2.2 + sc.default_expiration))
          ∈ rest2.map (fun t => (t.1, (t.2.1, t.2.2 + sc.default_expiration))) :=
        List.mem_map_of_mem _ hr
      have := lookupKey_of_mem_nodup (rest2.map
        (fun t => (t.1, (t.2.1, t.2.2 + sc.default_expiration))))
        (by simpa [List.map_map, Function.comp] using hndtail) hmem
      simpa using this

/-- Witness for C5: 1001 distinct keys (`""`, `"a"`, `"aa"`, ...) inserted
at times `0, 1, ..., 1000` into a fresh `CacheStorage`, and 3 distinct
keys into a `SimpleCache` of `max_size` 2. -/
theorem c5_witness :
    ((setSeq 3600 (evictItem 0 :: (List.range 1000).map (fun i => evictItem (i + 1)))
        (CacheStorage.initState 0 [])).local_cache.length = 1000 ∧
      lookupKey (evictItem 0).1 (setSeq 3600 (evictItem 0 :: (List.range 1000).map
        (fun i => evictItem (i + 1))) (CacheStorage.initState 0 [])).local_cache
        = Option.none ∧
      ∀ r ∈ (List.range 1000).map (fun i => evictItem (i + 1)),
        lookupKey r.1 (setSeq 3600 (evictItem 0 :: (List.range 1000).map
          (fun i => evictItem (i + 1))) (CacheStorage.initState 0 [])).local_cache
          = some ⟨r.2.1, r.2.2 + 3600, r.2.2⟩) ∧
    ((scSetSeq (evictItem 0 :: [evictItem 1, evictItem 2])
        (⟨[], [], 2, 3600⟩ : SimpleCacheState)).cache.length
        = (⟨[], [], 2, 3600⟩ : SimpleCacheState).max_size ∧
      lookupKey (evictItem 0).1 (scSetSeq (evictItem 0 :: [evictItem 1, evictItem 2])
        (⟨[], [], 2, 3600⟩ : SimpleCacheState)).cache = Option.none ∧
      ∀ r ∈ [evictItem 1, evictItem 2],
        lookupKey r.1 (scSetSeq (evictItem 0 :: [evictItem 1, evictItem 2])
          (⟨[], [], 2, 3600⟩ : SimpleCacheState)).cache
          = some (r.2.1, r.2.2 + (⟨[], [], 2, 3600⟩ : SimpleCacheState).default_expiration)) := by
  have hinj : Function.Injective (fun i => String.mk (List.replicate i 'a')) := by
    intro i j h
    have := congrArg (fun s : String => s.data.length) h
    simpa using this
  have hlist : (List.range 1001).map evictItem
      = evictItem 0 :: (List.range 1000).map (fun i => evictItem (i + 1)) := by
    rw [show (1001 : Nat) = 1000 + 1 by norm_num, List.range_succ_eq_map,
      List.map_cons, List.map_map]
    rw [show (evictItem ∘ Nat.succ) = (fun i => evictItem (i + 1)) from
      funext (fun i => rfl)]
  refine c5_capacity_eviction (evictItem 0)
    ((List.range 1000).map (fun i => evictItem (i + 1))) 3600
    (CacheStorage.initState 0 []) rfl (by simp) ?_ ?_
    (evictItem 0) [evictItem 1, evictItem 2] (⟨[], [], 2, 3600⟩ : SimpleCacheState)
    rfl (by norm_num) rfl (by decide) (by decide)
  · rw [← hlist, List.map_map]
    exact List.Nodup.map hinj (List.nodup_range 1001)
  · rw [← hlist, List.map_map, List.pairwise_map]
    refine (List.pairwise_lt_range 1001).imp ?_
    intro a b h
    show ((a : ℚ) < (b : ℚ))
    exact_mod_cast h

/-! ### Further helper lemmas for the decorator claims -/

theorem lookupKey_lruInsert_self {α : Type} (cap : Nat) (m : α → ℚ)
    (c : List (String × α)) (k : String) (e : α) :
    lookupKey k (lruInsert cap m c k e) = some e := by
  simp only [lruInsert]
  exact lookupKey_replaceOrAppend_self _ _ _

theorem lookupKey_eraseKey_self {α : Type} {c : List (String × α)} {k : String}
    (hnd : (c.map Prod.fst).Nodup) :
    lookupKey k (eraseKey k c) = Option.none := by
  induction c with
  | nil => rfl
  | cons p ps ih =>
    simp only [List.map_cons, List.nodup_cons] at hnd
    by_cases hp : p.1 = k
    · rw [eraseKey, if_pos hp]
      exact lookupKey_eq_none (hp ▸ hnd.1)
    · rw [eraseKey, if_neg hp, lookupKey, if_neg hp]
      exact ih hnd.2

theorem CacheStorage.getDisk_circuit_breaker (st : CacheState) (key : String) (now : ℚ) :
    ((CacheStorage.getDisk st key now).2).circuit_breaker = st.circuit_breaker := by
  rcases hd : lookupKey key st.disk with _ | f
  · simp [CacheStorage.getDisk, hd]
  · rcases hc : f.content with _ | ⟨v, e, ver⟩
    · simp [CacheStorage.getDisk, hd, hc]
    · by_cases hv : now < e ∧ ver = cacheVersion
      · simp [CacheStorage.getDisk, hd, hc, hv]
      · simp [CacheStorage.getDisk, hd, hc, hv]

theorem CacheStorage.get_circuit_breaker (st : CacheState) (key : String) (now : ℚ) :
    ((CacheStorage.get st key now).2).circuit_breaker = st.circuit_breaker := by
  unfold CacheStorage.get
  rcases hm : lookupKey key st.local_cache with _ | e
  · simp only [hm]
    rw [CacheStorage.getDisk_circuit_breaker]
  · simp only [hm]
    by_cases hexp : now < e.expires
    · rw [if_pos hexp]
    · rw [if_neg hexp, CacheStorage.getDisk_circuit_breaker]

/-- C4 (as the code has it): on a key present and unexpired only in
the disk tier, `SimpleCache.get` returns the stored value and backfills
the memory tier, but `CacheStorage.get` returns the stored value while
leaving the memory tier unchanged — no backfill occurs there. -/
theorem c4_disk_hit_promotion
    (sc : SimpleCacheState) (key : String) (v : PyVal) (e ct now : ℚ)
    (st : CacheState) (key2 : String) (v2 : PyVal) (e2 ct2 now2 : ℚ)
    (hmem : lookupKey key sc.cache = Option.none)
    (hdisk : lookupKey key sc.disk = some ⟨ct, .entry v e⟩)
    (he : now < e) (hsz : 1 ≤ sc.max_size)
    (hmem2 : lookupKey key2 st.local_cache = Option.none)
    (hdisk2 : lookupKey key2 st.disk = some ⟨ct2, .entry v2 e2 cacheVersion⟩)
    (he2 : now2 < e2) :
    ((SimpleCache.get sc key now).1 = v ∧
      lookupKey key ((SimpleCache.get sc key now).2).cache = some (v, e)) ∧
    ((CacheStorage.get st key2 now2).1 = v2 ∧
      ((CacheStorage.get st key2 now2).2).local_cache = st.local_cache ∧
      lookupKey key2 ((CacheStorage.get st key2 now2).2).local_cache = Option.none) := by
  constructor
  · have hne : e - now ≠ 0 := sub_ne_zero.mpr (ne_of_gt he)
    have hget : SimpleCache.get sc key now
        = (v, SimpleCache.set sc key v Option.none (some (e - now)) now) := by
      simp [SimpleCache.get, hmem, SimpleCache.getDisk, hdisk, he]
    rw [hget]
    refine ⟨rfl, ?_⟩
    have hexp : now + (e - now) = e := by ring
    simp only [SimpleCache.set, if_neg hne]
    rw [hexp, lookupKey_lruInsert_self]
  · have hget : CacheStorage.get st key2 now2 = CacheStorage.getDisk
        { st with
          access_counts := replaceOrAppend st.access_counts key2
            ⟨((lookupKey key2 st.access_counts).getD ⟨0, now2⟩).count + 1, now2⟩
          frequently_accessed :=
            if accessThreshold ≤ ((lookupKey key2 st.access_counts).getD ⟨0, now2⟩).count + 1
            then st.frequently_accessed.insert key2 else st.frequently_accessed }
        key2 now2 := by
      simp only [CacheStorage.get, hmem2]
    rw [hget]
    have hcv : cacheVersion = cacheVersion := rfl
    simp [CacheStorage.getDisk, hdisk2, he2, hcv, hmem2]

/-- Witness for C4's amended statement: key `"k"` stored only on disk, in
both cache classes. -/
theorem c4_witness :
    ((SimpleCache.get (⟨[], [("k", ⟨0, .entry (PyVal.int 7) 100⟩)], 1000, 3600⟩ :
        SimpleCacheState) "k" 1).1 = PyVal.int 7 ∧
      lookupKey "k" ((SimpleCache.get (⟨[], [("k", ⟨0, .entry (PyVal.int 7) 100⟩)],
        1000, 3600⟩ : SimpleCacheState) "k" 1).2).cache = some (PyVal.int 7, 100)) ∧
    ((CacheStorage.get (⟨[], [("k", ⟨0, .entry (PyVal.int 7) 100 "1.0"⟩)], [], [], 0,
        CircuitBreaker.init⟩ : CacheState) "k" 1).1 = PyVal.int 7 ∧
      ((CacheStorage.get (⟨[], [("k", ⟨0, .entry (PyVal.int 7) 100 "1.0"⟩)], [], [], 0,
        CircuitBreaker.init⟩ : CacheState) "k" 1).2).local_cache = [] ∧
      lookupKey "k" ((CacheStorage.get (⟨[], [("k", ⟨0, .entry (PyVal.int 7) 100 "1.0"⟩)],
        [], [], 0, CircuitBreaker.init⟩ : CacheState) "k" 1).2).local_cache = Option.none) :=
  c4_disk_hit_promotion
    (⟨[], [("k", ⟨0, .entry (PyVal.int 7) 100⟩)], 1000, 3600⟩ : SimpleCacheState) "k"
    (PyVal.int 7) 100 0 1
    (⟨[], [("k", ⟨0, .entry (PyVal.int 7) 100 "1.0"⟩)], [], [], 0,
      CircuitBreaker.init⟩ : CacheState) "k" (PyVal.int 7) 100 0 1
    rfl rfl (by norm_num) (by norm_num) rfl rfl (by norm_num)

/-- Counterexample to C4 as stated: with key `"k"` only on disk,
`CacheStorage.get` serves the value but a subsequent direct memory-tier
lookup still misses — the layered get did not backfill the memory tier. -/
theorem c4_counterexample :
    (CacheStorage.get (⟨[], [("k", ⟨0, .entry (PyVal.int 7) 100 "1.0"⟩)], [], [], 0,
        CircuitBreaker.init⟩ : CacheState) "k" 1).1 = PyVal.int 7 ∧
    lookupKey "k" ((CacheStorage.get (⟨[], [("k", ⟨0, .entry (PyVal.int 7) 100 "1.0"⟩)],
        [], [], 0, CircuitBreaker.init⟩ : CacheState) "k" 1).2).local_cache
      = Option.none :=
  ⟨rfl, rfl⟩

/-- C7 (as the code has it): with the key absent from memory, a disk
file whose version tag mismatches the current cache version is treated as
a miss and deleted; but a disk file that fails to deserialize is treated
as a miss while the file is left on disk (the `except` branch only logs —
no deletion happens). -/
theorem c7_stale_disk_entries
    (st : CacheState) (key : String) (now ct : ℚ) (v : PyVal) (e : ℚ) (ver : String)
    (st2 : CacheState) (key2 : String) (now2 ct2 : ℚ)
    (hmem : lookupKey key st.local_cache = Option.none)
    (hnd : (st.disk.map Prod.fst).Nodup)
    (hdisk : lookupKey key st.disk = some ⟨ct, .entry v e ver⟩)
    (hver : ver ≠ cacheVersion)
    (hmem2 : lookupKey key2 st2.local_cache = Option.none)
    (hdisk2 : lookupKey key2 st2.disk = some ⟨ct2, .corrupt⟩) :
    ((CacheStorage.get st key now).1 = PyVal.none ∧
      lookupKey key ((CacheStorage.get st key now).2).disk = Option.none) ∧
    ((CacheStorage.get st2 key2 now2).1 = PyVal.none ∧
      ((CacheStorage.get st2 key2 now2).2).disk = st2.disk) := by
  constructor
  · have hcond : ¬ (now < e ∧ ver = cacheVersion) := by
      rintro ⟨-, hv⟩
      exact hver hv
    constructor
    · simp [CacheStorage.get, hmem, CacheStorage.getDisk, hdisk, hcond]
    · simp only [CacheStorage.get, hmem, CacheStorage.getDisk, hdisk, hcond, if_neg]
      exact lookupKey_eraseKey_self hnd
  · constructor
    · simp [CacheStorage.get, hmem2, CacheStorage.getDisk, hdisk2]
    · simp [CacheStorage.get, hmem2, CacheStorage.getDisk, hdisk2]

/-- Witness for C7's amended statement: a version-`"0.9"` file is deleted
on lookup; a corrupt file survives its lookup. -/
theorem c7_witness :
    ((CacheStorage.get (⟨[], [("k", ⟨0, .entry (PyVal.int 7) 100 "0.9"⟩)], [], [], 0,
        CircuitBreaker.init⟩ : CacheState) "k" 1).1 = PyVal.none ∧
      lookupKey "k" ((CacheStorage.get (⟨[], [("k", ⟨0, .entry (PyVal.int 7) 100 "0.9"⟩)],
        [], [], 0, CircuitBreaker.init⟩ : CacheState) "k" 1).2).disk = Option.none) ∧
    ((CacheStorage.get (⟨[], [("c", ⟨0, .corrupt⟩)], [], [], 0,
        CircuitBreaker.init⟩ : CacheState) "c" 1).1 = PyVal.none ∧
      ((CacheStorage.get (⟨[], [("c", ⟨0, .corrupt⟩)], [], [], 0,
        CircuitBreaker.init⟩ : CacheState) "c" 1).2).disk = [("c", ⟨0, .corrupt⟩)]) :=
  c7_stale_disk_entries
    (⟨[], [("k", ⟨0, .entry (PyVal.int 7) 100 "0.9"⟩)], [], [], 0,
      CircuitBreaker.init⟩ : CacheState) "k" 1 0 (PyVal.int 7) 100 "0.9"
    (⟨[], [("c", ⟨0, .corrupt⟩)], [], [], 0, CircuitBreaker.init⟩ : CacheState) "c" 1 0
    rfl (by decide) rfl (by decide) rfl rfl

/-- Counterexample to C7 as stated: a corrupt (un-deserializable) disk
file for key `"c"` yields a miss, but the stale file is *not* deleted —
it is still on disk after the lookup. -/
theorem c7_counterexample :
    (CacheStorage.get (⟨[], [("c", ⟨0, .corrupt⟩)], [], [], 0,
        CircuitBreaker.init⟩ : CacheState) "c" 1).1 = PyVal.none ∧
    lookupKey "c" ((CacheStorage.get (⟨[], [("c", ⟨0, .corrupt⟩)], [], [], 0,
        CircuitBreaker.init⟩ : CacheState) "c" 1).2).disk = some ⟨0, .corrupt⟩ :=
  ⟨rfl, rfl⟩

/-- C9: `cache_with_redis` serves a cached value only when it is
truthy — the falsy Python values are exactly `None`, `False`, `0`, `""`,
`[]` and the empty dict, and a falsy stored value makes the wrapper
re-invoke the operation — whereas `cache_response` serves any stored value
that is not `None`.  (A truthy stored value is served by `cache_with_redis`
without invoking the operation.) -/
theorem c9_truthy_vs_not_none_serving
    (exp : ℚ) (hash : String → String) (args : List String)
    (kwargs : List (String × String)) (op : Except Unit PyVal) (now : ℚ)
    (st : CacheState) (v : PyVal) (e a : ℚ)
    (st' : CacheState) (v' : PyVal) (e' a' : ℚ) (op' : Except Unit PyVal) (now' : ℚ)
    (fname : String) (sc : SimpleCacheState) (v2 : PyVal) (e2 : ℚ)
    (op2 : Except Unit PyVal) (now2 : ℚ)
    (hlook : lookupKey (deriveKey hash args kwargs) st.local_cache = some ⟨v, e, a⟩)
    (he : now < e) (hf : truthy v = false)
    (hlook' : lookupKey (deriveKey hash args kwargs) st'.local_cache = some ⟨v', e', a'⟩)
    (he' : now' < e') (ht' : truthy v' = true)
    (hlook2 : lookupKey (deriveKey hash (fname :: args) kwargs) sc.cache = some (v2, e2))
    (he2 : now2 < e2) (hv2 : isNone v2 = false) :
    (∀ w : PyVal, truthy w = false ↔ (w = .none ∨ w = .bool false ∨ w = .int 0 ∨
      w = .str "" ∨ w = .list [] ∨ w = .dict [])) ∧
    (cacheWithRedis exp hash args kwargs op now st).opInvoked = true ∧
    ((cacheWithRedis exp hash args kwargs op' now' st').opInvoked = false ∧
      (cacheWithRedis exp hash args kwargs op' now' st').result = .ok v') ∧
    ((cacheResponse exp hash fname args kwargs op2 now2 sc).result = .ok v2 ∧
      (cacheResponse exp hash fname args kwargs op2 now2 sc).opInvoked = false) := by
  refine ⟨?_, ?_, ?_, ?_⟩
  · intro w
    cases w <;> simp [truthy]
  · have hget : (CacheStorage.get st (deriveKey hash args kwargs) now).1 = v := by
      simp [CacheStorage.get, hlook, he]
    rcases op with _ | w <;> simp [cacheWithRedis, hget, hf]
  · have hget : (CacheStorage.get st' (deriveKey hash args kwargs) now').1 = v' := by
      simp [CacheStorage.get, hlook', he']
    constructor <;> simp [cacheWithRedis, hget, ht']
  · have hget : SimpleCache.get sc (deriveKey hash (fname :: args) kwargs) now2
        = (v2, sc) := by
      simp [SimpleCache.get, hlook2, he2]
    constructor <;> simp [cacheResponse, hget, hv2]

/-- Witness for C9: a cached `0` under `cache_with_redis` re-invokes the
operation; a cached `7` is served; a cached empty string (falsy but not
`None`) is served by `cache_response`. -/
theorem c9_witness :
    (∀ w : PyVal, truthy w = false ↔ (w = .none ∨ w = .bool false ∨ w = .int 0 ∨
      w = .str "" ∨ w = .list [] ∨ w = .dict [])) ∧
    (cacheWithRedis 3600 id ["x"] [] (.ok (PyVal.int 5)) 1
      (⟨[("x", ⟨PyVal.int 0, 100, 0⟩)], [], [], [], 0, CircuitBreaker.init⟩ :
        CacheState)).opInvoked = true ∧
    ((cacheWithRedis 3600 id ["x"] [] (.ok (PyVal.int 5)) 1
      (⟨[("x", ⟨PyVal.int 7, 100, 0⟩)], [], [], [], 0, CircuitBreaker.init⟩ :
        CacheState)).opInvoked = false ∧
      (cacheWithRedis 3600 id ["x"] [] (.ok (PyVal.int 5)) 1
        (⟨[("x", ⟨PyVal.int 7, 100, 0⟩)], [], [], [], 0, CircuitBreaker.init⟩ :
          CacheState)).result = .ok (PyVal.int 7)) ∧
    ((cacheResponse 3600 id "f" ["x"] [] (.ok (PyVal.int 5)) 1
      (⟨[("f|x", (PyVal.str "", 100))], [], 1000, 3600⟩ :
        SimpleCacheState)).result = .ok (PyVal.str "") ∧
      (cacheResponse 3600 id "f" ["x"] [] (.ok (PyVal.int 5)) 1
        (⟨[("f|x", (PyVal.str "", 100))], [], 1000, 3600⟩ :
          SimpleCacheState)).opInvoked = false) :=
  c9_truthy_vs_not_none_serving 3600 id ["x"] [] (.ok (PyVal.int 5)) 1
    (⟨[("x", ⟨PyVal.int 0, 100, 0⟩)], [], [], [], 0, CircuitBreaker.init⟩ : CacheState)
    (PyVal.int 0) 100 0
    (⟨[("x", ⟨PyVal.int 7, 100, 0⟩)], [], [], [], 0, CircuitBreaker.init⟩ : CacheState)
    (PyVal.int 7) 100 0 (.ok (PyVal.int 5)) 1
    "f" (⟨[("f|x", (PyVal.str "", 100))], [], 1000, 3600⟩ : SimpleCacheState)
    (PyVal.str "") 100 (.ok (PyVal.int 5)) 1
    rfl (by norm_num) rfl rfl (by norm_num) rfl rfl (by norm_num) rfl

/-- C2 (as the code has it): on a full cache miss the
`cache_with_redis` wrapper *always* invokes the wrapped operation — it
never consults `CircuitBreaker.allow_request`, and the breaker instance
held by the cache is left untouched by the call. -/
theorem c2_no_breaker_gating_on_miss
    (exp : ℚ) (hash : String → String) (args : List String)
    (kwargs : List (String × String)) (op : Except Unit PyVal) (now : ℚ)
    (st : CacheState)
    (hmiss : truthy (CacheStorage.get st (deriveKey hash args kwargs) now).1 = false) :
    (cacheWithRedis exp hash args kwargs op now st).opInvoked = true ∧
    (cacheWithRedis exp hash args kwargs op now st).state.circuit_breaker
      = st.circuit_breaker := by
  have hcb := CacheStorage.get_circuit_breaker st (deriveKey hash args kwargs) now
  rcases op with u | w
  · constructor <;> simp [cacheWithRedis, hmiss, hcb]
  · constructor <;>
      simp [cacheWithRedis, hmiss, hcb, CacheStorage.set, CacheStorage._store_in_all_layers]

/-- Witness for C2's amended statement: a miss on a fresh cache invokes
the operation and leaves the breaker untouched. -/
theorem c2_witness :
    (cacheWithRedis 3600 id ["r"] [] (.ok (PyVal.int 7)) 1
      (CacheStorage.initState 0 [])).opInvoked = true ∧
    (cacheWithRedis 3600 id ["r"] [] (.ok (PyVal.int 7)) 1
      (CacheStorage.initState 0 [])).state.circuit_breaker
      = (CacheStorage.initState 0 []).circuit_breaker :=
  c2_no_breaker_gating_on_miss 3600 id ["r"] [] (.ok (PyVal.int 7)) 1
    (CacheStorage.initState 0 []) rfl

/-- Counterexample to C2 as stated: with the stored breaker open and
refusing requests (`allow_request` answers `false`), a full-miss call
still invokes the wrapped operation instead of failing fast — the
decorator never consults the breaker. -/
theorem c2_counterexample :
    ((⟨5, 60, 5, 0, "open"⟩ : CircuitBreaker).allow_request 30 0).1 = false ∧
    (cacheWithRedis 3600 id ["r"] [] (.ok (PyVal.int 7)) 30
      (⟨[], [], [], [], 0, ⟨5, 60, 5, 0, "open"⟩⟩ : CacheState)).opInvoked = true ∧
    (cacheWithRedis 3600 id ["r"] [] (.ok (PyVal.int 7)) 30
      (⟨[], [], [], [], 0, ⟨5, 60, 5, 0, "open"⟩⟩ : CacheState)).result
      = .ok (PyVal.int 7) := by
  refine ⟨?_, rfl, rfl⟩
  norm_num [CircuitBreaker.allow_request]
  rw [if_neg (by decide : ¬ ("open" : String) = "closed")]

/-- C6 (as the code has it): when the wrapped operation raises, the
wrapper propagates the exception, stores nothing (the post-call state is
exactly the post-lookup state), and — contrary to the claim — does not
call `CircuitBreaker.record_failure`; when the operation succeeds the
result is stored under the derived key, and `record_success` is likewise
never called: the breaker field is unchanged in both cases. -/
theorem c6_error_propagation_no_breaker
    (exp : ℚ) (hash : String → String) (args : List String)
    (kwargs : List (String × String)) (now : ℚ) (st : CacheState) (v : PyVal)
    (hmiss : truthy (CacheStorage.get st (deriveKey hash args kwargs) now).1 = false) :
    (cacheWithRedis exp hash args kwargs (.error ()) now st).result = .error () ∧
    (cacheWithRedis exp hash args kwargs (.error ()) now st).state
      = (CacheStorage.get st (deriveKey hash args kwargs) now).2 ∧
    (cacheWithRedis exp hash args kwargs (.error ()) now st).state.circuit_breaker
      = st.circuit_breaker ∧
    (cacheWithRedis exp hash args kwargs (.ok v) now st).result = .ok v ∧
    (cacheWithRedis exp hash args kwargs (.ok v) now st).state
      = CacheStorage.set (CacheStorage.get st (deriveKey hash args kwargs) now).2
          (deriveKey hash args kwargs) v exp now ∧
    lookupKey (deriveKey hash args kwargs)
      ((cacheWithRedis exp hash args kwargs (.ok v) now st).state).local_cache
      = some ⟨v, now + exp, now⟩ ∧
    (cacheWithRedis exp hash args kwargs (.ok v) now st).state.circuit_breaker
      = st.circuit_breaker := by
  have hcb := CacheStorage.get_circuit_breaker st (deriveKey hash args kwargs) now
  refine ⟨by simp [cacheWithRedis, hmiss], by simp [cacheWithRedis, hmiss],
    by simp [cacheWithRedis, hmiss, hcb], by simp [cacheWithRedis, hmiss],
    by simp [cacheWithRedis, hmiss], ?_,
    by simp [cacheWithRedis, hmiss, hcb, CacheStorage.set, CacheStorage._store_in_all_layers]⟩
  have : (cacheWithRedis exp hash args kwargs (.ok v) now st).state
      = CacheStorage.set (CacheStorage.get st (deriveKey hash args kwargs) now).2
          (deriveKey hash args kwargs) v exp now := by
    simp [cacheWithRedis, hmiss]
  rw [this]
  simp only [CacheStorage.set, CacheStorage._store_in_all_layers]
  exact lookupKey_lruInsert_self _ _ _ _ _

/-- Witness for C6's amended statement on a fresh cache at time 1. -/
theorem c6_witness :
    (cacheWithRedis 3600 id ["r"] [] (.error ()) 1
      (CacheStorage.initState 0 [])).result = .error () ∧
    (cacheWithRedis 3600 id ["r"] [] (.error ()) 1
      (CacheStorage.initState 0 [])).state
      = (CacheStorage.get (CacheStorage.initState 0 []) (deriveKey id ["r"] []) 1).2 ∧
    (cacheWithRedis 3600 id ["r"] [] (.error ()) 1
      (CacheStorage.initState 0 [])).state.circuit_breaker
      = (CacheStorage.initState 0 []).circuit_breaker ∧
    (cacheWithRedis 3600 id ["r"] [] (.ok (PyVal.int 9)) 1
      (CacheStorage.initState 0 [])).result = .ok (PyVal.int 9) ∧
    (cacheWithRedis 3600 id ["r"] [] (.ok (PyVal.int 9)) 1
      (CacheStorage.initState 0 [])).state
      = CacheStorage.set
          (CacheStorage.get (CacheStorage.initState 0 []) (deriveKey id ["r"] []) 1).2
          (deriveKey id ["r"] []) (PyVal.int 9) 3600 1 ∧
    lookupKey (deriveKey id ["r"] [])
      ((cacheWithRedis 3600 id ["r"] [] (.ok (PyVal.int 9)) 1
        (CacheStorage.initState 0 [])).state).local_cache
      = some ⟨PyVal.int 9, 1 + 3600, 1⟩ ∧
    (cacheWithRedis 3600 id ["r"] [] (.ok (PyVal.int 9)) 1
      (CacheStorage.initState 0 [])).state.circuit_breaker
      = (CacheStorage.initState 0 []).circuit_breaker :=
  c6_error_propagation_no_breaker 3600 id ["r"] [] 1 (CacheStorage.initState 0 [])
    (PyVal.int 9) rfl

/-- Counterexample to C6 as stated: a failing wrapped operation leaves the
breaker exactly as it was (failures still 3), whereas the
`record_failure` call the claim mandates would have moved it to 4. -/
theorem c6_counterexample :
    (cacheWithRedis 3600 id ["r"] [] (.error ()) 1
      (⟨[], [], [], [], 0, ⟨5, 60, 3, 0, "closed"⟩⟩ : CacheState)).result = .error () ∧
    (cacheWithRedis 3600 id ["r"] [] (.error ()) 1
      (⟨[], [], [], [], 0, ⟨5, 60, 3, 0, "closed"⟩⟩ : CacheState)).state.circuit_breaker
      = ⟨5, 60, 3, 0, "closed"⟩ ∧
    ((⟨5, 60, 3, 0, "closed"⟩ : CircuitBreaker).record_failure 1).failures = 4 ∧
    (⟨5, 60, 3, 0, "closed"⟩ : CircuitBreaker).failures = 3 :=
  ⟨rfl, rfl, by norm_num [CircuitBreaker.record_failure], rfl⟩

/-- C1: contrary to the claim (and the spec's stated intent), the
`cache_with_redis` wrapper has no streaming bypass.  With
`stream=True` among the keyword arguments, the first call queries the
cache (the access counter for the derived key is created), invokes the
operation, and stores the streaming response object in the memory tier;
on disk, `open(path, 'wb')` truncates the file before `pickle.dump`
raises on the unpicklable response, leaving a corrupt file at the derived
key.  A second call with identical arguments is then served from cache —
the operation is not invoked again, and the caller receives the response
object of the first call. -/
theorem c1_stream_not_bypassed :
    (cacheWithRedis 3600 id ["req"] [("stream", "True")] (.ok (PyVal.obj 1)) 0
      (CacheStorage.initState 0 [])).opInvoked = true ∧
    (lookupKey (deriveKey id ["req"] [("stream", "True")])
      ((cacheWithRedis 3600 id ["req"] [("stream", "True")] (.ok (PyVal.obj 1)) 0
        (CacheStorage.initState 0 [])).state).local_cache).isSome = true ∧
    (lookupKey (deriveKey id ["req"] [("stream", "True")])
      ((cacheWithRedis 3600 id ["req"] [("stream", "True")] (.ok (PyVal.obj 1)) 0
        (CacheStorage.initState 0 [])).state).access_counts).isSome = true ∧
    lookupKey (deriveKey id ["req"] [("stream", "True")])
      ((cacheWithRedis 3600 id ["req"] [("stream", "True")] (.ok (PyVal.obj 1)) 0
        (CacheStorage.initState 0 [])).state).disk = some ⟨0, .corrupt⟩ ∧
    (cacheWithRedis 3600 id ["req"] [("stream", "True")] (.ok (PyVal.obj 2)) 1
      ((cacheWithRedis 3600 id ["req"] [("stream", "True")] (.ok (PyVal.obj 1)) 0
        (CacheStorage.initState 0 [])).state)).opInvoked = false ∧
    (cacheWithRedis 3600 id ["req"] [("stream", "True")] (.ok (PyVal.obj 2)) 1
      ((cacheWithRedis 3600 id ["req"] [("stream", "True")] (.ok (PyVal.obj 1)) 0
        (CacheStorage.initState 0 [])).state)).result = .ok (PyVal.obj 1) := by
  have hlook : lookupKey (deriveKey id ["req"] [("stream", "True")])
      ((cacheWithRedis 3600 id ["req"] [("stream", "True")] (.ok (PyVal.obj 1)) 0
        (CacheStorage.initState 0 [])).state).local_cache
      = some ⟨PyVal.obj 1, 0 + 3600, 0⟩ := rfl
  obtain ⟨st1, hst1⟩ : ∃ s, (cacheWithRedis 3600 id ["req"] [("stream", "True")]
      (.ok (PyVal.obj 1)) 0 (CacheStorage.initState 0 [])).state = s := ⟨_, rfl⟩
  rw [hst1] at hlook
  have hget : (CacheStorage.get st1
      (deriveKey id ["req"] [("stream", "True")]) 1).1 = PyVal.obj 1 := by
    simp only [CacheStorage.get, hlook]
    rw [if_pos (by norm_num : (1 : ℚ) < 0 + 3600)]
  refine ⟨rfl, rfl, rfl, rfl, ?_, ?_⟩
  · rw [hst1]
    simp [cacheWithRedis, hget, truthy]
  · rw [hst1]
    simp [cacheWithRedis, hget, truthy]
